import Mathlib

/-!
Shallow embedding of `src/bin/okc-gpg.rs` from splack/okc-agents.

Streams are modelled as lists of bytes (`List Nat`, values < 256 where it
matters).  A Rust `String` is identified with its UTF-8 byte sequence, so
`String::from_utf8` becomes a validity check (`validUtf8`) on the raw
bytes.  Fallible operations return `Except Err _`; the distinct boxed
error values of the source are mapped to the constructors of `Err`.
-/

namespace OkcGpg

abbrev Bytes := List Nat

/-- Error kinds of the source, collapsing its boxed `dyn Error` values:
`ioError` for any `std::io::Error` (including `read_exact` hitting EOF),
`utf8Error` for `FromUtf8Error`, `protocolError` for the
`StringError("protocol error: invalid connection type")` value,
`remoteFailure` for `StringError("an error has occurred in the app")`,
`launchError` for a failed `cmd.status()`. -/
inductive Err where
  | ioError
  | utf8Error
  | protocolError
  | remoteFailure
  | launchError
deriving DecidableEq, Repr

/-- `AsyncReadExt::read_exact` on a buffer of size `n`: succeeds returning
the first `n` bytes and the remaining stream, fails with an I/O error
(UnexpectedEof) when the stream ends first. -/
def readExact (n : Nat) (s : Bytes) : Except Err (Bytes × Bytes) :=
  if n ≤ s.length then .ok (s.take n, s.drop n) else .error .ioError

/-- A UTF-8 continuation byte, `0x80 ..= 0xBF`. -/
def utf8Cont (b : Nat) : Bool := decide (0x80 ≤ b ∧ b ≤ 0xBF)

/-- The UTF-8 validity check performed by `String::from_utf8`, following
the byte-range table of Rust `core::str`'s `run_utf8_validation`. -/
def validUtf8 : Bytes → Bool
  | [] => true
  | b :: t =>
    if b ≤ 0x7F then validUtf8 t
    else if 0xC2 ≤ b ∧ b ≤ 0xDF then
      match t with
      | c1 :: t2 => utf8Cont c1 && validUtf8 t2
      | [] => false
    else if b = 0xE0 then
      match t with
      | c1 :: c2 :: t2 => decide (0xA0 ≤ c1 ∧ c1 ≤ 0xBF) && utf8Cont c2 && validUtf8 t2
      | _ => false
    else if (0xE1 ≤ b ∧ b ≤ 0xEC) ∨ (0xEE ≤ b ∧ b ≤ 0xEF) then
      match t with
      | c1 :: c2 :: t2 => utf8Cont c1 && utf8Cont c2 && validUtf8 t2
      | _ => false
    else if b = 0xED then
      match t with
      | c1 :: c2 :: t2 => decide (0x80 ≤ c1 ∧ c1 ≤ 0x9F) && utf8Cont c2 && validUtf8 t2
      | _ => false
    else if b = 0xF0 then
      match t with
      | c1 :: c2 :: c3 :: t2 =>
        decide (0x90 ≤ c1 ∧ c1 ≤ 0xBF) && utf8Cont c2 && utf8Cont c3 && validUtf8 t2
      | _ => false
    else if 0xF1 ≤ b ∧ b ≤ 0xF3 then
      match t with
      | c1 :: c2 :: c3 :: t2 => utf8Cont c1 && utf8Cont c2 && utf8Cont c3 && validUtf8 t2
      | _ => false
    else if b = 0xF4 then
      match t with
      | c1 :: c2 :: c3 :: t2 =>
        decide (0x80 ≤ c1 ∧ c1 ≤ 0x8F) && utf8Cont c2 && utf8Cont c3 && validUtf8 t2
      | _ => false
    else false

/-- `read_str`: read a 2-byte big-endian length `(len_buf[0] << 8) + len_buf[1]`,
read that many payload bytes, and validate them as UTF-8
(`String::from_utf8(str_buf)?`).  Returns the decoded string (as its byte
sequence) together with the unread remainder of the stream. -/
def read_str (s : Bytes) : Except Err (Bytes × Bytes) :=
  match readExact 2 s with
  | .error e => .error e
  | .ok (lenBuf, s1) =>
    match readExact (lenBuf.headD 0 * 256 + lenBuf.getD 1 0) s1 with
    | .error e => .error e
    | .ok (strBuf, s2) =>
      if validUtf8 strBuf then .ok (strBuf, s2) else .error .utf8Error

/-- Modelled from the spec: the peer-side frame encoder (the initiator in
this repository only reads frames, it never writes one): a 2-byte
big-endian length followed by the UTF-8 bytes of the payload. -/
def encodeFrame (p : Bytes) : Bytes :=
  p.length / 256 :: p.length % 256 :: p

theorem readExact_ok_iff (n : Nat) (s b r : Bytes) :
    readExact n s = .ok (b, r) ↔ n ≤ s.length ∧ b = s.take n ∧ r = s.drop n := by
  unfold readExact
  split
  · simp_all [eq_comm, and_comm]
  · simp_all

theorem readExact_append (a b : Bytes) : readExact a.length (a ++ b) = .ok (a, b) := by
  rw [readExact_ok_iff]
  refine ⟨by simp, ?_, ?_⟩
  · rw [List.take_left]
  · rw [List.drop_left]

theorem readExact_err_iff (n : Nat) (s : Bytes) (e : Err) :
    readExact n s = .error e ↔ s.length < n ∧ e = .ioError := by
  unfold readExact
  split <;> simp_all [eq_comm]

theorem read_str_encode (p rest : Bytes) (hv : validUtf8 p = true) :
    read_str (encodeFrame p ++ rest) = .ok (p, rest) := by
  have e1 : encodeFrame p ++ rest = [p.length / 256, p.length % 256] ++ (p ++ rest) := by
    simp [encodeFrame]
  have h2 : readExact 2 ([p.length / 256, p.length % 256] ++ (p ++ rest))
      = .ok ([p.length / 256, p.length % 256], p ++ rest) :=
    readExact_append [p.length / 256, p.length % 256] (p ++ rest)
  have hlen : p.length / 256 * 256 + p.length % 256 = p.length := by omega
  unfold read_str
  rw [e1, h2]
  simp only [List.headD_cons, List.getD_cons_succ, List.getD_cons_zero]
  rw [hlen, readExact_append p rest]
  simp [hv]

theorem read_str_ok_length {s msg r : Bytes} (h : read_str s = .ok (msg, r)) :
    r.length + 2 ≤ s.length := by
  unfold read_str at h
  split at h
  · exact absurd h (by simp)
  · rename_i lenBuf s1 heq
    split at h
    · exact absurd h (by simp)
    · rename_i strBuf s2 heq2
      rw [readExact_ok_iff] at heq heq2
      split at h
      · obtain ⟨-, -, hr⟩ := heq2
        obtain ⟨h2, -, hs1⟩ := heq
        cases h
        subst hr hs1
        simp only [List.length_drop]
        omega
      · exact absurd h (by simp)

/-- The warning loop of `handle_control_connection`, with a structural fuel
argument.  Each iteration consumes at least 2 bytes of the stream, so fuel
`s.length` always suffices; when fuel hits 0 the stream is necessarily
empty and the 0-case returns the same `ioError` that `read_str` would.
Result: the warning messages emitted (in order) and either an error or the
stream remainder after the terminating empty frame. -/
def ctrlLoopAux : Nat → Bytes → List Bytes × Except Err Bytes
  | 0, _ => ([], .error .ioError)
  | fuel + 1, s =>
    match read_str s with
    | .error e => ([], .error e)
    | .ok (msg, s1) =>
      if msg.isEmpty then ([], .ok s1)
      else
        let (ws, r) := ctrlLoopAux fuel s1
        (msg :: ws, r)

/-- The `loop { let msg = read_str(..)?; ... }` of `handle_control_connection`:
read frames, emitting every non-empty one as a warning, until the first
empty frame. -/
def ctrlLoop (s : Bytes) : List Bytes × Except Err Bytes :=
  ctrlLoopAux s.length s

/-- `handle_control_connection`: run the warning loop, then read exactly one
status byte; status 0 means success, anything else is the
`"an error has occurred in the app"` failure.  The first component is the
list of warning messages logged (`warn!`); `info!`/`debug!` lines carry no
protocol content and are not modelled. -/
def handle_control_connection (s : Bytes) : List Bytes × Except Err Unit :=
  match ctrlLoop s with
  | (ws, .error e) => (ws, .error e)
  | (ws, .ok s1) =>
    match readExact 1 s1 with
    | .error e => (ws, .error e)
    | .ok (statBuf, _) =>
      match statBuf.headD 0 with
      | 0 => (ws, .ok ())
      | _ + 1 => (ws, .error .remoteFailure)

/-- The local environment a relay handler interacts with: standard input
(its readable bytes, plus a flag injecting a read error after them),
the readable files (`File::open`: `none` = open fails; otherwise content
plus a read-error flag), and which paths `File::create` can create. -/
structure Env where
  stdin : Bytes × Bool
  fileRead : Bytes → Option (Bytes × Bool)
  fileCreate : Bytes → Bool

/-- Observable side effects of a connection handler: a logged warning,
bytes written into the connection, bytes written to standard output, or
bytes written to a created file. -/
inductive Effect where
  | warn (msg : Bytes)
  | connWrite (data : Bytes)
  | stdoutWrite (data : Bytes)
  | fileWrite (path data : Bytes)
deriving DecidableEq, Repr

/-- The byte sequence of the sentinel path `"-"` (a single ASCII dash). -/
def dashPath : Bytes := [45]

/-- `handle_input_connection`: read one path frame; `"-"` selects standard
input, any other path is opened with `File::open` (failing open is an I/O
error); then `io::copy` the source into the connection.  The bytes a
source delivers before an injected read error are written to the
connection; the error then propagates. -/
def handle_input_connection (env : Env) (s : Bytes) : List Effect × Except Err Unit :=
  match read_str s with
  | .error e => ([], .error e)
  | .ok (path, _) =>
    if path = dashPath then
      ([.connWrite env.stdin.1], if env.stdin.2 then .error .ioError else .ok ())
    else
      match env.fileRead path with
      | none => ([], .error .ioError)
      | some (data, bad) =>
        ([.connWrite data], if bad then .error .ioError else .ok ())

/-- `handle_output_connection`: read one path frame; `"-"` selects standard
output, any other path is created/truncated with `File::create` (failing
create is an I/O error); then `io::copy` the rest of the connection into
the sink.  The model's connection stream holds exactly the bytes the peer
sends before closing. -/
def handle_output_connection (env : Env) (s : Bytes) : List Effect × Except Err Unit :=
  match read_str s with
  | .error e => ([], .error e)
  | .ok (path, rest) =>
    if path = dashPath then
      ([.stdoutWrite rest], .ok ())
    else if env.fileCreate path then
      ([.fileWrite path rest], .ok ())
    else
      ([], .error .ioError)

/-- Outcome of `handle_connection` as seen by the accept loop: the handler
returned `Ok(())`, returned an error, or — only on the Control success
path — called `std::process::exit(0)`. -/
inductive HOut where
  | ok
  | err (e : Err)
  | exit0
deriving DecidableEq, Repr

/-- An accepted connection: the accept result, either an accept/peer-addr
error or the byte stream the peer sends on it. -/
abbrev Conn := Except Unit Bytes

/-- `handle_connection`: propagate an accept error, read exactly one
connection-type byte, and dispatch: 0 = Control (whose `Ok` branch calls
`std::process::exit(0)`), 1 = Input, 2 = Output, anything else is the
`"protocol error: invalid connection type"` error with no handler run. -/
def handle_connection (env : Env) (c : Conn) : List Effect × HOut :=
  match c with
  | .error _ => ([], .err .ioError)
  | .ok [] => ([], .err .ioError)
  | .ok (op :: rest) =>
    match op with
    | 0 =>
      match handle_control_connection rest with
      | (ws, .ok _) => (ws.map Effect.warn, .exit0)
      | (ws, .error e) => (ws.map Effect.warn, .err e)
    | 1 =>
      match handle_input_connection env rest with
      | (es, .ok _) => (es, .ok)
      | (es, .error e) => (es, .err e)
    | 2 =>
      match handle_output_connection env rest with
      | (es, .ok _) => (es, .ok)
      | (es, .error e) => (es, .err e)
    | _ + 3 => ([], .err .protocolError)

/-- The `while let Some(accept_result) = incoming.next().await` loop of
`run`: handle each connection to completion in order.  A handler error
reaches `exit_error` (exit status 1); the Control success path exits with
status 0; an exhausted list models the loop blocked on `accept` forever
(`incoming` never yields `None`), so the process has not terminated:
`none`. -/
def loopConns (env : Env) : List Conn → Option Nat
  | [] => none
  | c :: cs =>
    match (handle_connection env c).2 with
    | .ok => loopConns env cs
    | .err _ => some 1
    | .exit0 => some 0

/-- `run`, after the bind (whose own failure modes carry no protocol
content): `cmd.status()?` either fails — the error propagates to `main`,
which calls `exit_error`, exit status 1 — or yields the `am` command's
exit status, whose value is discarded; then the accept loop runs. -/
def run (launch : Except Unit Nat) (env : Env) (conns : List Conn) : Option Nat :=
  match launch with
  | .error _ => some 1
  | .ok _ => loopConns env conns

theorem ctrlLoopAux_congr (f1 : Nat) :
    ∀ (f2 : Nat) (s : Bytes), s.length ≤ f1 → s.length ≤ f2 →
      ctrlLoopAux f1 s = ctrlLoopAux f2 s := by
  induction f1 with
  | zero =>
    intro f2 s h1 _
    have hs : s = [] := by cases s <;> simp_all
    subst hs
    cases f2 with
    | zero => rfl
    | succ f2 => rfl
  | succ f1 ih =>
    intro f2 s h1 h2
    cases f2 with
    | zero =>
      have hs : s = [] := by cases s <;> simp_all
      subst hs
      rfl
    | succ f2 =>
      show ctrlLoopAux (f1 + 1) s = ctrlLoopAux (f2 + 1) s
      unfold ctrlLoopAux
      cases hr : read_str s with
      | error e => rfl
      | ok p =>
        obtain ⟨msg, s1⟩ := p
        have hlt := read_str_ok_length hr
        have hrec : ctrlLoopAux f1 s1 = ctrlLoopAux f2 s1 :=
          ih f2 s1 (by omega) (by omega)
        simp only [hrec]

theorem ctrlLoop_error {s : Bytes} {e : Err} (h : read_str s = .error e) :
    ctrlLoop s = ([], .error e) := by
  unfold ctrlLoop
  cases hn : s.length with
  | zero =>
    have hs : s = [] := by cases s <;> simp_all
    subst hs
    have h0 : read_str ([] : Bytes) = .error .ioError := rfl
    rw [h0] at h
    cases h
    rfl
  | succ n =>
    show ctrlLoopAux (n + 1) s = ([], .error e)
    unfold ctrlLoopAux
    rw [h]

theorem ctrlLoop_empty {s s1 : Bytes} (h : read_str s = .ok ([], s1)) :
    ctrlLoop s = ([], .ok s1) := by
  obtain ⟨n, hn⟩ : ∃ n, s.length = n + 1 :=
    ⟨s.length - 1, by have := read_str_ok_length h; omega⟩
  unfold ctrlLoop
  rw [hn]
  unfold ctrlLoopAux
  rw [h]
  simp

theorem ctrlLoop_warn {s s1 : Bytes} {m : Nat} {mrest : Bytes}
    (h : read_str s = .ok (m :: mrest, s1)) :
    ctrlLoop s = ((m :: mrest) :: (ctrlLoop s1).1, (ctrlLoop s1).2) := by
  obtain ⟨n, hn⟩ : ∃ n, s.length = n + 1 :=
    ⟨s.length - 1, by have := read_str_ok_length h; omega⟩
  have hc : ctrlLoopAux n s1 = ctrlLoop s1 :=
    ctrlLoopAux_congr n s1.length s1
      (by have := read_str_ok_length h; omega) le_rfl
  show ctrlLoopAux s.length s = _
  rw [hn]
  unfold ctrlLoopAux
  rw [h]
  simp only [List.isEmpty_cons, Bool.false_eq_true, if_false, hc]

theorem ctrlLoop_parse (msgs : List Bytes) (tail : Bytes)
    (hm : ∀ m ∈ msgs, m ≠ [] ∧ validUtf8 m = true) :
    ctrlLoop ((msgs.map encodeFrame).flatten ++ (encodeFrame [] ++ tail))
      = (msgs, .ok tail) := by
  induction msgs with
  | nil =>
    simp only [List.map_nil, List.flatten, List.nil_append]
    exact ctrlLoop_empty (read_str_encode [] tail rfl)
  | cons m ms ih =>
    obtain ⟨hne, hv⟩ := hm m (by simp)
    have hs : ((m :: ms).map encodeFrame).flatten ++ (encodeFrame [] ++ tail)
        = encodeFrame m ++ ((ms.map encodeFrame).flatten ++ (encodeFrame [] ++ tail)) := by
      simp [List.append_assoc]
    rw [hs]
    have hr := read_str_encode m ((ms.map encodeFrame).flatten ++ (encodeFrame [] ++ tail)) hv
    obtain ⟨m0, mrest, hm0⟩ : ∃ a b, m = a :: b := by
      cases m with
      | nil => exact absurd rfl hne
      | cons a b => exact ⟨a, b, rfl⟩
    subst hm0
    rw [ctrlLoop_warn hr, ih (fun x hx => hm x (by simp [hx]))]

theorem handle_control_parse (msgs : List Bytes) (status : Nat) (rest : Bytes)
    (hm : ∀ m ∈ msgs, m ≠ [] ∧ validUtf8 m = true) :
    handle_control_connection ((msgs.map encodeFrame).flatten ++ (encodeFrame [] ++ status :: rest))
      = (msgs, if status = 0 then .ok () else .error .remoteFailure) := by
  unfold handle_control_connection
  rw [ctrlLoop_parse msgs (status :: rest) hm]
  have h1 : readExact 1 (status :: rest) = .ok ([status], rest) := by
    simp [readExact]
  dsimp only
  rw [h1]
  dsimp only [List.headD_cons]
  cases status with
  | zero => rfl
  | succ k => rfl

theorem handle_connection_ctrl (env : Env) (s : Bytes) :
    handle_connection env (.ok (0 :: s))
      = ((handle_control_connection s).1.map Effect.warn,
         match (handle_control_connection s).2 with
         | .ok _ => HOut.exit0
         | .error e => .err e) := by
  cases hc : handle_control_connection s with
  | mk ws r =>
    unfold handle_connection
    dsimp only
    rw [hc]
    cases r with
    | ok u => rfl
    | error e => rfl

theorem handle_connection_input (env : Env) (s : Bytes) :
    handle_connection env (.ok (1 :: s))
      = ((handle_input_connection env s).1,
         match (handle_input_connection env s).2 with
         | .ok _ => HOut.ok
         | .error e => .err e) := by
  cases hc : handle_input_connection env s with
  | mk es r =>
    unfold handle_connection
    dsimp only
    rw [hc]
    cases r with
    | ok u => rfl
    | error e => rfl

theorem handle_connection_output (env : Env) (s : Bytes) :
    handle_connection env (.ok (2 :: s))
      = ((handle_output_connection env s).1,
         match (handle_output_connection env s).2 with
         | .ok _ => HOut.ok
         | .error e => .err e) := by
  cases hc : handle_output_connection env s with
  | mk es r =>
    unfold handle_connection
    dsimp only
    rw [hc]
    cases r with
    | ok u => rfl
    | error e => rfl

theorem handle_connection_big (env : Env) (s : Bytes) (op : Nat) (h : 3 ≤ op) :
    handle_connection env (.ok (op :: s)) = ([], .err .protocolError) := by
  obtain ⟨n, rfl⟩ : ∃ n, op = n + 3 := ⟨op - 3, by omega⟩
  rfl

theorem handle_control_ok_iff (s : Bytes) :
    (handle_control_connection s).2 = .ok () ↔
      ∃ ws rest, ctrlLoop s = (ws, .ok (0 :: rest)) := by
  cases hc : ctrlLoop s with
  | mk ws r =>
    unfold handle_control_connection
    rw [hc]
    cases r with
    | error e => simp
    | ok s1 =>
      dsimp only
      cases s1 with
      | nil =>
        rw [show readExact 1 ([] : Bytes) = .error .ioError from by simp [readExact]]
        simp
      | cons b t =>
        rw [show readExact 1 (b :: t) = .ok ([b], t) from by simp [readExact]]
        dsimp only [List.headD_cons]
        cases b with
        | zero => simp
        | succ k => simp

theorem handle_connection_exit0_iff (env : Env) (c : Conn) :
    (handle_connection env c).2 = .exit0 ↔
      ∃ s, c = .ok (0 :: s) ∧ (handle_control_connection s).2 = .ok () := by
  cases c with
  | error u =>
    simp [handle_connection]
  | ok s =>
    cases s with
    | nil => simp [handle_connection]
    | cons op rest =>
      rcases op with _ | _ | _ | n
      · rw [handle_connection_ctrl]
        cases hc : (handle_control_connection rest).2 with
        | ok u => cases u; simp [hc]
        | error e => simp [hc]
      · rw [handle_connection_input]
        cases hc : (handle_input_connection env rest).2 with
        | ok u => simp
        | error e => simp
      · rw [handle_connection_output]
        cases hc : (handle_output_connection env rest).2 with
        | ok u => simp
        | error e => simp
      · rw [handle_connection_big env rest (n + 3) (by omega)]
        simp

theorem loopConns_values (env : Env) :
    ∀ (conns : List Conn) (r : Nat), loopConns env conns = some r → r = 0 ∨ r = 1 := by
  intro conns
  induction conns with
  | nil => intro r h; simp [loopConns] at h
  | cons c cs ih =>
    intro r h
    unfold loopConns at h
    cases hr : (handle_connection env c).2 with
    | ok =>
      rw [hr] at h
      dsimp only at h
      exact ih r h
    | err e =>
      rw [hr] at h
      dsimp only at h
      injection h with h2
      exact Or.inr h2.symm
    | exit0 =>
      rw [hr] at h
      dsimp only at h
      injection h with h2
      exact Or.inl h2.symm

theorem loopConns_zero_iff (env : Env) :
    ∀ conns : List Conn,
      loopConns env conns = some 0 ↔
        ∃ pre c post, conns = pre ++ c :: post ∧
          (∀ x ∈ pre, (handle_connection env x).2 = .ok) ∧
          (handle_connection env c).2 = .exit0 := by
  intro conns
  induction conns with
  | nil =>
    simp only [loopConns]
    constructor
    · intro h; cases h
    · rintro ⟨pre, c, post, hsplit, -, -⟩
      exact absurd hsplit.symm (List.append_ne_nil_of_right_ne_nil pre (List.cons_ne_nil c post))
  | cons c cs ih =>
    unfold loopConns
    cases hr : (handle_connection env c).2 with
    | ok =>
      dsimp only
      rw [ih]
      constructor
      · rintro ⟨pre, c2, post, hsplit, hpre, hc2⟩
        refine ⟨c :: pre, c2, post, by rw [hsplit, List.cons_append], ?_, hc2⟩
        intro x hx
        rcases List.mem_cons.mp hx with h | h
        · rw [h]; exact hr
        · exact hpre x h
      · rintro ⟨pre, c2, post, hsplit, hpre, hc2⟩
        cases pre with
        | nil =>
          simp only [List.nil_append] at hsplit
          cases hsplit
          rw [hr] at hc2
          cases hc2
        | cons p ps =>
          rw [List.cons_append] at hsplit
          injection hsplit with h1 h2
          subst h1
          exact ⟨ps, c2, post, h2, fun x hx => hpre x (List.mem_cons_of_mem _ hx), hc2⟩
    | err e =>
      dsimp only
      constructor
      · intro h; cases h
      · rintro ⟨pre, c2, post, hsplit, hpre, hc2⟩
        cases pre with
        | nil =>
          simp only [List.nil_append] at hsplit
          cases hsplit
          rw [hr] at hc2
          cases hc2
        | cons p ps =>
          rw [List.cons_append] at hsplit
          injection hsplit with h1 h2
          subst h1
          have hco := hpre c (List.mem_cons_self c ps)
          rw [hr] at hco
          cases hco
    | exit0 =>
      dsimp only
      constructor
      · intro _
        exact ⟨[], c, cs, rfl, ⟨fun x hx => absurd hx (List.not_mem_nil x), hr⟩⟩
      · intro _; rfl

theorem loopConns_err_prefix (env : Env) :
    ∀ (pre : List Conn) (c : Conn) (post : List Conn) (e : Err),
      (∀ x ∈ pre, (handle_connection env x).2 = .ok) →
      (handle_connection env c).2 = .err e →
      loopConns env (pre ++ c :: post) = some 1 := by
  intro pre
  induction pre with
  | nil =>
    intro c post e _ hc
    rw [List.nil_append]
    unfold loopConns
    rw [hc]
  | cons p ps ih =>
    intro c post e hpre hc
    rw [List.cons_append]
    unfold loopConns
    rw [hpre p (List.mem_cons_self p ps)]
    dsimp only
    exact ih c post e (fun x hx => hpre x (List.mem_cons_of_mem _ hx)) hc

/-- An environment with empty standard input, no readable files and no
creatable files, used to instantiate theorems at concrete inputs. -/
def env0 : Env := ⟨([], false), fun _ => none, fun _ => false⟩

/-- C1: the process exits with status 0 only when some Control connection
reported status byte 0 (all earlier connections having been handled
without error); every other termination path — an I/O error in any
handler, an invalid connection-type byte, a non-zero reported status (all
of which surface as a handler error), or a Launcher invocation failure —
exits with status 1, and no exit status other than 0 and 1 is possible. -/
theorem exit_status_characterization (launch : Except Unit Nat) (env : Env)
    (conns : List Conn) :
    (∀ r, run launch env conns = some r → r = 0 ∨ r = 1) ∧
    (run launch env conns = some 0 ↔
      (∃ code, launch = .ok code) ∧
      ∃ pre c post, conns = pre ++ c :: post ∧
        (∀ x ∈ pre, (handle_connection env x).2 = .ok) ∧
        (handle_connection env c).2 = .exit0) ∧
    (∀ c : Conn, (handle_connection env c).2 = .exit0 ↔
      ∃ s ws rest, c = .ok (0 :: s) ∧ ctrlLoop s = (ws, .ok (0 :: rest))) ∧
    (launch = .error () → run launch env conns = some 1) ∧
    (∀ code pre c post e, launch = .ok code → conns = pre ++ c :: post →
      (∀ x ∈ pre, (handle_connection env x).2 = .ok) →
      (handle_connection env c).2 = .err e →
      run launch env conns = some 1) := by
  refine ⟨?_, ?_, ?_, ?_, ?_⟩
  · intro r h
    cases launch with
    | error u =>
      cases u
      unfold run at h
      dsimp only at h
      injection h with h2
      exact Or.inr h2.symm
    | ok code =>
      unfold run at h
      dsimp only at h
      exact loopConns_values env conns r h
  · cases launch with
    | error u =>
      cases u
      constructor
      · intro h
        unfold run at h
        dsimp only at h
        exact absurd h (by simp)
      · rintro ⟨⟨code, hcode⟩, -⟩
        cases hcode
    | ok code =>
      show loopConns env conns = some 0 ↔ _
      rw [loopConns_zero_iff env conns]
      constructor
      · intro h
        exact ⟨⟨code, rfl⟩, h⟩
      · rintro ⟨-, h⟩
        exact h
  · intro c
    rw [handle_connection_exit0_iff env c]
    constructor
    · rintro ⟨s, hcs, hok⟩
      obtain ⟨ws, rest, hwr⟩ := (handle_control_ok_iff s).mp hok
      exact ⟨s, ws, rest, hcs, hwr⟩
    · rintro ⟨s, ws, rest, hcs, hwr⟩
      exact ⟨s, hcs, (handle_control_ok_iff s).mpr ⟨ws, rest, hwr⟩⟩
  · intro h
    subst h
    rfl
  · intro code pre c post e hl hsplit hpre hc
    subst hl hsplit
    show loopConns env (pre ++ c :: post) = some 1
    exact loopConns_err_prefix env pre c post e hpre hc

theorem exit_status_characterization_witness :
    run (.ok 7) env0 [.ok [0, 0, 0, 0]] = some 0 :=
  (exit_status_characterization (.ok 7) env0 [.ok [0, 0, 0, 0]]).2.1.mpr
    ⟨⟨7, rfl⟩, [], .ok [0, 0, 0, 0], [],
      rfl, fun x hx => absurd hx (List.not_mem_nil x), by decide⟩

/-- C2: the Control handler reads frames in a loop, emits every non-empty
frame as a warning and continues, stops at the first empty frame, then
reads exactly one status byte.  Status 0 makes the handler succeed and the
dispatcher call `std::process::exit(0)`, abandoning every connection still
queued (the loop result is `some 0` whatever `conns` holds); a non-zero
status byte makes the handler fail with the remote-failure error, which is
fatal for the whole process (exit status 1). -/
theorem control_session_spec (env : Env) (msgs : List Bytes) (status : Nat)
    (rest : Bytes) (conns : List Conn)
    (hm : ∀ m ∈ msgs, m ≠ [] ∧ validUtf8 m = true ∧ m.length ≤ 65535)
    (_hst : status ≤ 255) :
    handle_control_connection
        ((msgs.map encodeFrame).flatten ++ (encodeFrame [] ++ status :: rest))
      = (msgs, if status = 0 then .ok () else .error .remoteFailure) ∧
    handle_connection env
        (.ok (0 :: ((msgs.map encodeFrame).flatten ++ (encodeFrame [] ++ status :: rest))))
      = (msgs.map Effect.warn, if status = 0 then .exit0 else .err .remoteFailure) ∧
    (status = 0 →
      loopConns env
          (.ok (0 :: ((msgs.map encodeFrame).flatten ++ (encodeFrame [] ++ status :: rest)))
            :: conns)
        = some 0) ∧
    (status ≠ 0 →
      loopConns env
          (.ok (0 :: ((msgs.map encodeFrame).flatten ++ (encodeFrame [] ++ status :: rest)))
            :: conns)
        = some 1) := by
  have hm2 : ∀ m ∈ msgs, m ≠ [] ∧ validUtf8 m = true :=
    fun m hx => ⟨(hm m hx).1, (hm m hx).2.1⟩
  have h0 := handle_control_parse msgs status rest hm2
  have h1 := handle_connection_ctrl env
    ((msgs.map encodeFrame).flatten ++ (encodeFrame [] ++ status :: rest))
  rw [h0] at h1
  have hB : handle_connection env
      (.ok (0 :: ((msgs.map encodeFrame).flatten ++ (encodeFrame [] ++ status :: rest))))
      = (msgs.map Effect.warn,
          if status = 0 then HOut.exit0 else .err .remoteFailure) := by
    rw [h1]
    by_cases hs : status = 0
    · rw [if_pos hs, if_pos hs]
    · rw [if_neg hs, if_neg hs]
  refine ⟨h0, hB, fun hs => ?_, fun hs => ?_⟩
  · unfold loopConns
    rw [hB, if_pos hs]
  · unfold loopConns
    rw [hB, if_neg hs]

theorem control_session_spec_witness :
    (∀ m ∈ ([[65]] : List Bytes), m ≠ [] ∧ validUtf8 m = true ∧ m.length ≤ 65535) ∧
    loopConns env0
        [.ok (0 :: ((([[65]] : List Bytes).map encodeFrame).flatten
          ++ (encodeFrame [] ++ 1 :: [])))]
      = some 1 :=
  ⟨by decide,
    (control_session_spec env0 [[65]] 1 [] [] (by decide) (by decide)).2.2.2 (by decide)⟩

/-- C3: for every accepted connection exactly one type byte is read and
dispatched on: byte 0 runs the Control handler, byte 1 the Input handler,
byte 2 the Output handler, and any byte value 3 or larger yields the
invalid-connection-type protocol error with no handler run (no effects)
and is fatal to the accept loop (exit status 1); an accept error or a
stream that closes before the type byte is an I/O error. -/
theorem dispatcher_spec (env : Env) (s : Bytes) (op : Nat) (conns : List Conn) :
    handle_connection env (.error ()) = ([], .err .ioError) ∧
    handle_connection env (.ok []) = ([], .err .ioError) ∧
    handle_connection env (.ok (0 :: s))
      = ((handle_control_connection s).1.map Effect.warn,
         match (handle_control_connection s).2 with
         | .ok _ => HOut.exit0
         | .error e => .err e) ∧
    handle_connection env (.ok (1 :: s))
      = ((handle_input_connection env s).1,
         match (handle_input_connection env s).2 with
         | .ok _ => HOut.ok
         | .error e => .err e) ∧
    handle_connection env (.ok (2 :: s))
      = ((handle_output_connection env s).1,
         match (handle_output_connection env s).2 with
         | .ok _ => HOut.ok
         | .error e => .err e) ∧
    (3 ≤ op →
      handle_connection env (.ok (op :: s)) = ([], .err .protocolError) ∧
      loopConns env (.ok (op :: s) :: conns) = some 1) := by
  refine ⟨rfl, rfl, handle_connection_ctrl env s, handle_connection_input env s,
    handle_connection_output env s, fun h => ⟨handle_connection_big env s op h, ?_⟩⟩
  unfold loopConns
  rw [handle_connection_big env s op h]

theorem dispatcher_spec_witness :
    handle_connection env0 (.ok [255, 9]) = ([], .err .protocolError) ∧
    loopConns env0 [.ok [255, 9]] = some 1 :=
  (dispatcher_spec env0 [9] 255 []).2.2.2.2.2 (by decide)

/-- C4: `read_str` reads 2 bytes interpreted as a big-endian length, then
exactly that many payload bytes: a stream exhausted before the 2 length
bytes or before the declared payload is an I/O error (short read); with
enough bytes the result is the payload exactly when it is valid UTF-8, and
the UTF-8 (protocol) error otherwise, even though the declared length
matched. -/
theorem read_str_spec (s : Bytes) :
    (s.length < 2 → read_str s = .error .ioError) ∧
    (∀ b0 b1 rest, s = b0 :: b1 :: rest →
      (rest.length < b0 * 256 + b1 → read_str s = .error .ioError) ∧
      (b0 * 256 + b1 ≤ rest.length →
        read_str s =
          if validUtf8 (rest.take (b0 * 256 + b1)) then
            .ok (rest.take (b0 * 256 + b1), rest.drop (b0 * 256 + b1))
          else .error .utf8Error)) := by
  constructor
  · intro h
    unfold read_str
    rw [(readExact_err_iff 2 s .ioError).mpr ⟨h, rfl⟩]
  · intro b0 b1 rest hs
    subst hs
    have h2 : readExact 2 (b0 :: b1 :: rest) = .ok ([b0, b1], rest) :=
      (readExact_ok_iff 2 _ _ _).mpr ⟨by simp only [List.length_cons]; omega, rfl, rfl⟩
    constructor
    · intro hshort
      unfold read_str
      rw [h2]
      dsimp only [List.headD_cons, List.getD_cons_succ, List.getD_cons_zero]
      rw [(readExact_err_iff (b0 * 256 + b1) rest .ioError).mpr ⟨hshort, rfl⟩]
    · intro hlong
      unfold read_str
      rw [h2]
      dsimp only [List.headD_cons, List.getD_cons_succ, List.getD_cons_zero]
      rw [(readExact_ok_iff (b0 * 256 + b1) rest _ _).mpr ⟨hlong, rfl, rfl⟩]

theorem read_str_spec_witness :
    read_str [5] = .error .ioError ∧
    read_str [0, 1, 200] = .error .utf8Error ∧
    read_str [0, 1, 65, 99] = .ok ([65], [99]) :=
  ⟨(read_str_spec [5]).1 (by decide),
    (((read_str_spec [0, 1, 200]).2 0 1 [200] rfl).2 (by decide)).trans rfl,
    (((read_str_spec [0, 1, 65, 99]).2 0 1 [65, 99] rfl).2 (by decide)).trans rfl⟩

/-- C5: frame round-trip — encoding any UTF-8 string of byte length at
most 65535 as a 2-byte big-endian length followed by its bytes, then
decoding that byte sequence with `read_str`, yields exactly the original
string (leaving any following bytes unread). -/
theorem frame_roundtrip_spec (p rest : Bytes)
    (_hlen : p.length ≤ 65535) (hv : validUtf8 p = true) :
    read_str (encodeFrame p ++ rest) = .ok (p, rest) :=
  read_str_encode p rest hv

theorem frame_roundtrip_spec_witness :
    ([104, 105] : Bytes).length ≤ 65535 ∧ validUtf8 [104, 105] = true ∧
    read_str (encodeFrame [104, 105] ++ [7]) = .ok ([104, 105], [7]) :=
  ⟨by decide, by decide, frame_roundtrip_spec [104, 105] [7] (by decide) (by decide)⟩

/-- An environment with readable standard input `[10, 11]`, one readable
file at path `[97]` with content `[1, 2, 3]`, and one creatable path
`[98]`, used to instantiate the relay theorems at concrete inputs. -/
def env1 : Env :=
  ⟨([10, 11], false),
    fun p => if p = [97] then some ([1, 2, 3], false) else none,
    fun p => decide (p = [98])⟩

/-- C8: the Input Relay handler reads exactly one path frame; the sentinel
path `"-"` selects standard input and any other path is opened for
reading, a failed open being a fatal I/O error; the source's bytes are
then copied verbatim, in order, into the connection, the handler
succeeding exactly when the copy completes without a read error (a failed
path-frame read propagates unchanged). -/
theorem input_relay_spec (env : Env) (path junk s : Bytes) (e : Err)
    (hv : validUtf8 path = true) (_hlen : path.length ≤ 65535) :
    (handle_input_connection env (encodeFrame path ++ junk)
      = if path = dashPath then
          ([.connWrite env.stdin.1], if env.stdin.2 then .error .ioError else .ok ())
        else
          match env.fileRead path with
          | none => ([], .error .ioError)
          | some (data, bad) =>
            ([.connWrite data], if bad then .error .ioError else .ok ())) ∧
    (read_str s = .error e → handle_input_connection env s = ([], .error e)) := by
  constructor
  · unfold handle_input_connection
    rw [read_str_encode path junk hv]
  · intro h
    unfold handle_input_connection
    rw [h]

theorem input_relay_spec_witness :
    validUtf8 dashPath = true ∧
    handle_input_connection env1 (encodeFrame dashPath ++ [3, 4])
      = ([.connWrite [10, 11]], .ok ()) ∧
    handle_input_connection env1 (encodeFrame [97] ++ [])
      = ([.connWrite [1, 2, 3]], .ok ()) ∧
    handle_input_connection env1 (encodeFrame [99] ++ [])
      = ([], .error .ioError) :=
  ⟨by decide,
    ((input_relay_spec env1 dashPath [3, 4] [] .ioError (by decide) (by decide)).1).trans rfl,
    ((input_relay_spec env1 [97] [] [] .ioError (by decide) (by decide)).1).trans rfl,
    ((input_relay_spec env1 [99] [] [] .ioError (by decide) (by decide)).1).trans rfl⟩

/-- C9: the Output Relay handler reads exactly one path frame; the
sentinel path `"-"` selects standard output and any other path is
created/truncated, a failed create being fatal; the bytes the peer then
sends on the connection (everything up to the peer's close) are copied
verbatim into the chosen sink, so the sink receives exactly the peer's
bytes (a failed path-frame read propagates unchanged). -/
theorem output_relay_spec (env : Env) (path payload s : Bytes) (e : Err)
    (hv : validUtf8 path = true) (_hlen : path.length ≤ 65535) :
    (handle_output_connection env (encodeFrame path ++ payload)
      = if path = dashPath then ([.stdoutWrite payload], .ok ())
        else if env.fileCreate path then ([.fileWrite path payload], .ok ())
        else ([], .error .ioError)) ∧
    (read_str s = .error e → handle_output_connection env s = ([], .error e)) := by
  constructor
  · unfold handle_output_connection
    rw [read_str_encode path payload hv]
  · intro h
    unfold handle_output_connection
    rw [h]

theorem output_relay_spec_witness :
    handle_output_connection env1 (encodeFrame dashPath ++ [5, 6])
      = ([.stdoutWrite [5, 6]], .ok ()) ∧
    handle_output_connection env1 (encodeFrame [98] ++ [5, 6, 7])
      = ([.fileWrite [98] [5, 6, 7]], .ok ()) ∧
    handle_output_connection env1 (encodeFrame [99] ++ [5])
      = ([], .error .ioError) :=
  ⟨((output_relay_spec env1 dashPath [5, 6] [] .ioError (by decide) (by decide)).1).trans rfl,
    ((output_relay_spec env1 [98] [5, 6, 7] [] .ioError (by decide) (by decide)).1).trans rfl,
    ((output_relay_spec env1 [99] [5] [] .ioError (by decide) (by decide)).1).trans rfl⟩

/-- C10: the Launcher invocation `cmd.status()?` is only checked for
failure to spawn/run the `am` command: a spawn error is fatal, but the
command's own exit-status value is discarded — `run` proceeds to the
accept loop identically whatever exit status the command reported. -/
theorem launcher_status_discarded (env : Env) (conns : List Conn) :
    (∀ c1 c2 : Nat, run (.ok c1) env conns = run (.ok c2) env conns) ∧
    (∀ code : Nat, run (.ok code) env conns = loopConns env conns) ∧
    run (.error ()) env conns = some 1 :=
  ⟨fun _ _ => rfl, fun _ => rfl, rfl⟩

/-- System-level termination actions: `exit_error` performs `error!(..)`,
takes the global `LOG_GUARD` out of its mutex and drops it (flushing the
async logging sink), then calls `std::process::exit(1)`; the Control
success path in `handle_connection` calls `std::process::exit(0)`. -/
inductive SysAct where
  | logErrorAct
  | dropLogGuardAct
  | procExitAct (code : Nat)
deriving DecidableEq, Repr

/-- The sequence of system actions the process performs on termination
(empty when it never terminates): every error path goes through
`exit_error` (log, drop the guard, exit 1); the Control-success path calls
`std::process::exit(0)` directly, without touching the log guard. -/
def processActs (launch : Except Unit Nat) (env : Env) (conns : List Conn) :
    List SysAct :=
  match run launch env conns with
  | none => []
  | some 0 => [.procExitAct 0]
  | some _ => [.logErrorAct, .dropLogGuardAct, .procExitAct 1]

/-- C6 counterexample: the claim fails on the successful exit path.  A
Control connection reporting status 0 makes the process exit via
`std::process::exit(0)` in `handle_connection` without the log guard ever
being dropped: the termination trace contains no guard drop. -/
theorem log_guard_flush_counterexample :
    run (.ok 0) env0 [.ok [0, 0, 0, 0]] = some 0 ∧
    SysAct.dropLogGuardAct ∉ processActs (.ok 0) env0 [.ok [0, 0, 0, 0]] := by
  decide

/-- C6 (amended): on every *error* termination path the log guard is
dropped (flushing the logging sink) before the process exits with status
1; the successful termination path (Control status 0) exits with status 0
without dropping the guard. -/
theorem log_guard_flush_amended (launch : Except Unit Nat) (env : Env)
    (conns : List Conn) :
    (run launch env conns = some 1 →
      processActs launch env conns
        = [.logErrorAct, .dropLogGuardAct, .procExitAct 1]) ∧
    (run launch env conns = some 0 →
      processActs launch env conns = [.procExitAct 0] ∧
      SysAct.dropLogGuardAct ∉ processActs launch env conns) ∧
    (run launch env conns = none → processActs launch env conns = []) := by
  refine ⟨fun h => ?_, fun h => ?_, fun h => ?_⟩
  · unfold processActs
    rw [h]
  · unfold processActs
    rw [h]
    exact ⟨rfl, by decide⟩
  · unfold processActs
    rw [h]

theorem log_guard_flush_amended_witness :
    run (.error ()) env0 [] = some 1 ∧
    processActs (.error ()) env0 []
      = [.logErrorAct, .dropLogGuardAct, .procExitAct 1] :=
  ⟨rfl, (log_guard_flush_amended (.error ()) env0 []).1 rfl⟩

/-- The effect trace of the accept loop, tagging each effect with the
index of the connection that produced it.  `run` awaits
`handle_connection` inline (`handle_connection(accept_result, ..).await`
inside the `while let` — there is no `spawn`), so connection `i`'s handler
runs to completion before connection `i + 1` is accepted; the loop stops
at the first handler that errors or exits the process. -/
def loopTrace (env : Env) : Nat → List Conn → List (Nat × Effect)
  | _, [] => []
  | i, c :: cs =>
    match handle_connection env c with
    | (es, .ok) => es.map (fun e => (i, e)) ++ loopTrace env (i + 1) cs
    | (es, .err _) => es.map (fun e => (i, e))
    | (es, .exit0) => es.map (fun e => (i, e))

theorem loopTrace_tag_ge (env : Env) :
    ∀ (conns : List Conn) (i : Nat) (p : Nat × Effect),
      p ∈ loopTrace env i conns → i ≤ p.1 := by
  intro conns
  induction conns with
  | nil =>
    intro i p hp
    simp [loopTrace] at hp
  | cons c cs ih =>
    intro i p hp
    unfold loopTrace at hp
    cases hc : handle_connection env c with
    | mk es r =>
      rw [hc] at hp
      cases r with
      | ok =>
        dsimp only at hp
        rcases List.mem_append.mp hp with h | h
        · obtain ⟨e, -, he⟩ := List.mem_map.mp h
          exact le_of_eq (congrArg Prod.fst he)
        · have := ih (i + 1) p h
          omega
      | err e0 =>
        dsimp only at hp
        obtain ⟨e, -, he⟩ := List.mem_map.mp hp
        rw [← he]
      | exit0 =>
        dsimp only at hp
        obtain ⟨e, -, he⟩ := List.mem_map.mp hp
        rw [← he]

theorem map_const_sorted {α : Type} (i : Nat) :
    ∀ l : List α, List.Sorted (· ≤ ·) (l.map fun _ => i) := by
  intro l
  induction l with
  | nil => exact List.sorted_nil
  | cons x xs ih =>
    rw [List.map_cons, List.sorted_cons]
    refine ⟨fun b hb => ?_, ih⟩
    obtain ⟨y, -, hy⟩ := List.mem_map.mp hb
    exact le_of_eq hy

/-- C7 (amended): the accept loop handles connections strictly
sequentially — `run` awaits each `handle_connection` inline, so a
connection's handler runs to completion before the next connection is
accepted and handlers never interleave: in the tagged effect trace, all
effects of an earlier connection precede all effects of a later one (the
tag sequence is monotone).  Two Input connections therefore still each
relay their own bytes without cross-contamination (they never overlap),
but a Control connection cannot be dispatched, nor decide termination,
while another connection is mid-transfer. -/
theorem sequential_handling (env : Env) :
    ∀ (conns : List Conn) (i : Nat),
      List.Sorted (· ≤ ·) ((loopTrace env i conns).map Prod.fst) := by
  intro conns
  induction conns with
  | nil =>
    intro i
    simp only [loopTrace, List.map_nil]
    exact List.sorted_nil
  | cons c cs ih =>
    intro i
    unfold loopTrace
    cases hc : handle_connection env c with
    | mk es r =>
      cases r with
      | ok =>
        dsimp only
        rw [List.map_append, List.map_map]
        refine List.pairwise_append.mpr ⟨map_const_sorted i es, ih (i + 1), ?_⟩
        intro a ha b hb
        obtain ⟨e, -, he⟩ := List.mem_map.mp ha
        obtain ⟨q, hq, hqb⟩ := List.mem_map.mp hb
        have hbq := loopTrace_tag_ge env cs (i + 1) q hq
        have ha2 : i = a := he
        have hb2 : q.1 = b := hqb
        omega
      | err e0 =>
        dsimp only
        rw [List.map_map]
        exact map_const_sorted i es
      | exit0 =>
        dsimp only
        rw [List.map_map]
        exact map_const_sorted i es

/-- An environment whose standard input holds `[7, 8, 9]`, for the
concrete sequential-handling counterexample. -/
def env7 : Env := ⟨([7, 8, 9], false), fun _ => none, fun _ => false⟩

/-- C7 counterexample: the claim fails on the code because `run` never
spawns — with an Input connection accepted first (relaying standard
input) and a Control connection accepted second (one warning, then status
0), every effect of the Control connection comes strictly after the Input
handler has completely finished: no Control-tagged effect precedes any
Input-tagged effect in the trace, so the Control connection cannot be
dispatched, nor decide termination, while the Input transfer is still in
flight. -/
theorem sequential_handling_counterexample :
    loopTrace env7 0 [.ok (1 :: encodeFrame dashPath),
        .ok (0 :: (encodeFrame [65] ++ (encodeFrame [] ++ [0])))]
      = [(0, .connWrite [7, 8, 9]), (1, .warn [65])] ∧
    ¬ ∃ i j : Fin (loopTrace env7 0 [.ok (1 :: encodeFrame dashPath),
        .ok (0 :: (encodeFrame [65] ++ (encodeFrame [] ++ [0])))]).length,
        (i : Nat) < (j : Nat) ∧
        ((loopTrace env7 0 [.ok (1 :: encodeFrame dashPath),
            .ok (0 :: (encodeFrame [65] ++ (encodeFrame [] ++ [0])))]).get i).1 = 1 ∧
        ((loopTrace env7 0 [.ok (1 :: encodeFrame dashPath),
            .ok (0 :: (encodeFrame [65] ++ (encodeFrame [] ++ [0])))]).get j).1 = 0 := by
  decide

end OkcGpg
